import Mathlib

/-!
Verification of the composer modeling-language core: data model, effective
property resolution, instance validation, ModelFile registration, and the
system-test utility helpers. Definitions for the compiler/validator core are
modelled from the specification (the core sources are not part of this tree);
the carlease sample model and the TestUtil helpers are translated directly
from the sources.
-/

/-- A fixed-count regex atom: one character class (a union of inclusive
character ranges) repeated exactly `count` times. The validators appearing in
the modeling language surface (`^[A-HJ-NPR-Z]\x7b8\x7d[X][A-HJ-NPR-Z]\x7b2\x7d\d\x7b6\x7d$`,
`^[A-z][A-z][0-9]\x7b7\x7d`) fall in this fragment. -/
structure RAtom where
  ranges : List (Char × Char)
  count : Nat
deriving DecidableEq, Repr

/-- A regular-expression validator: its source text plus its compiled atoms. -/
structure RegexV where
  src : String
  atoms : List RAtom
deriving DecidableEq, Repr

/-- Does character `c` fall in one of the inclusive ranges of the class? -/
def classMatch (ranges : List (Char × Char)) (c : Char) : Bool :=
  ranges.any fun r => decide (r.1 ≤ c) && decide (c ≤ r.2)

/-- Consume exactly `n` characters, each matching the class; return the rest. -/
def consumeClass (ranges : List (Char × Char)) : Nat → List Char → Option (List Char)
  | 0, cs => some cs
  | _ + 1, [] => none
  | n + 1, c :: cs => if classMatch ranges c then consumeClass ranges n cs else none

/-- Run a list of atoms left to right over the character list. -/
def matchAtoms : List RAtom → List Char → Option (List Char)
  | [], cs => some cs
  | a :: as, cs =>
    match consumeClass a.ranges a.count cs with
    | none => none
    | some rest => matchAtoms as rest

/-- Modelled from the spec: a String validator requires the WHOLE value to
match the pattern (§4.3 step 3), so a match must consume every character. -/
def fullMatch (r : RegexV) (s : String) : Bool :=
  matchAtoms r.atoms s.toList == some []

/-- Total number of characters a fixed-count atom list consumes. -/
def atomsLength (as : List RAtom) : Nat :=
  (as.map RAtom.count).sum

/-- Primitive field kinds of the modeling language. -/
inductive PrimKind
  | string | integer | long | double | boolean | dateTime
deriving DecidableEq, Repr

/-- A property's type: a primitive kind, an enum reference, or a
relationship to a target declaration. -/
inductive PropType
  | prim (k : PrimKind)
  | enumRef (n : String)
  | rel (target : String)
deriving DecidableEq, Repr

/-- An inclusive numeric range with independently omittable bounds. -/
structure NumRange where
  lo : Option Int
  hi : Option Int
deriving DecidableEq, Repr

/-- A scalar candidate value for validation. -/
inductive Scalar
  | str (s : String)
  | int (i : Int)
  | dbl (q : Rat)
  | bool (b : Bool)
  | dt (s : String)
deriving DecidableEq, Repr

/-- A candidate value: a single scalar, or a sequence for array properties. -/
inductive Value
  | one (s : Scalar)
  | many (xs : List Scalar)
deriving DecidableEq, Repr

/-- Modelled from the spec (§3): a Property declaration with its validators. -/
structure Property where
  name : String
  ptype : PropType
  isArray : Bool
  optional : Bool
  defaultValue : Option Value
  regex : Option RegexV
  range : Option NumRange
deriving DecidableEq, Repr

/-- Declaration kinds. -/
inductive DeclKind
  | asset | participant | transaction | concept
deriving DecidableEq, Repr

/-- Modelled from the spec (§3): a class declaration. -/
structure ClassDecl where
  name : String
  kind : DeclKind
  isAbstract : Bool
  superType : Option String
  identifiedBy : Option String
  properties : List Property
deriving DecidableEq, Repr

/-- An enumeration declaration. -/
structure EnumDecl where
  name : String
  literals : List String
deriving DecidableEq, Repr

/-- Modelled from the spec: the resolved set of declarations registered in a
ModelManager, viewed after imports are merged. -/
structure Model where
  decls : List ClassDecl
  enums : List EnumDecl
deriving DecidableEq, Repr

def lookupDecl (m : Model) (n : String) : Option ClassDecl :=
  m.decls.find? fun d => d.name == n

def lookupEnum (m : Model) (n : String) : Option EnumDecl :=
  m.enums.find? fun e => e.name == n

/-- Modelled from the spec (§4.2 (e)): compute the effective property list of
a declaration — all ancestor properties followed by the declaration's own, in
ancestor-to-descendant declaration order. `fuel` bounds the chain walk; a
cycle or an unresolved supertype yields `none`. -/
def computeEffective (m : Model) : Nat → ClassDecl → Option (List Property)
  | fuel, d =>
    match d.superType with
    | none => some d.properties
    | some s =>
      match fuel with
      | 0 => none
      | fuel' + 1 =>
        match lookupDecl m s with
        | none => none
        | some p => (computeEffective m fuel' p).map (fun eff => eff ++ d.properties)

/-- The chain of ancestors of a declaration, root ancestor first. -/
def ancestorChain (m : Model) : Nat → ClassDecl → Option (List ClassDecl)
  | fuel, d =>
    match d.superType with
    | none => some []
    | some s =>
      match fuel with
      | 0 => none
      | fuel' + 1 =>
        match lookupDecl m s with
        | none => none
        | some p => (ancestorChain m fuel' p).map (fun c => c ++ [p])

/-- Modelled from the spec (§4.2 (d)): the effective identifying field of a
declaration — declared locally or found by walking ancestors. -/
def effIdField (m : Model) : Nat → ClassDecl → Option String
  | fuel, d =>
    match d.identifiedBy with
    | some f => some f
    | none =>
      match fuel, d.superType with
      | fuel' + 1, some s =>
        match lookupDecl m s with
        | some p => effIdField m fuel' p
        | none => none
      | _, _ => none

/-- Error kinds of the validation taxonomy (§7); a regex violation carries
the violated pattern's source text. -/
inductive VErrorKind
  | missingRequired
  | typeMismatch
  | regexViolation (pattern : String)
  | rangeViolation
  | enumViolation
  | unknownField
  | instantiateAbstract
deriving DecidableEq, Repr

/-- A validation error, carrying the field path and the declaration name. -/
structure ValidationError where
  vkind : VErrorKind
  fieldPath : String
  declName : String
deriving DecidableEq, Repr

/-- A candidate instance: a mapping from field names to values. -/
def Instance : Type := List (String × Value)

def lookupValue (inst : Instance) (n : String) : Option Value :=
  (inst.find? fun kv => kv.1 == n).map Prod.snd

/-- Is the lower bound (if present) satisfied, for an Int value? -/
def lowerOkI (r : NumRange) (v : Int) : Bool :=
  match r.lo with
  | none => true
  | some lo => decide (lo ≤ v)

/-- Is the upper bound (if present) satisfied, for an Int value? -/
def upperOkI (r : NumRange) (v : Int) : Bool :=
  match r.hi with
  | none => true
  | some hi => decide (v ≤ hi)

/-- Modelled from the spec (§4.3 step 4): an inclusive range check; an
omitted bound is unconstrained on that side. -/
def checkRangeI (r : NumRange) (v : Int) : Bool :=
  lowerOkI r v && upperOkI r v

/-- The same range check for a Double (rational) value. -/
def checkRangeQ (r : NumRange) (v : Rat) : Bool :=
  (match r.lo with
   | none => true
   | some lo => decide ((lo : Rat) ≤ v)) &&
  (match r.hi with
   | none => true
   | some hi => decide (v ≤ (hi : Rat)))

/-- Modelled from the spec (§4.3 step 6): the regex attached to the effective
identifying field of a relationship's target declaration, if any. -/
def targetIdRegex (m : Model) (t : String) : Option RegexV :=
  (lookupDecl m t).bind fun d =>
    (effIdField m m.decls.length d).bind fun f =>
      (computeEffective m m.decls.length d).bind fun eff =>
        (eff.find? fun p => p.name == f).bind fun p => p.regex

/-- Modelled from the spec (§4.3 steps 2-6): check one scalar value against a
property's base kind, returning the violated error kinds. -/
def checkScalarK (m : Model) (p : Property) (s : Scalar) : List VErrorKind :=
  match p.ptype, s with
  | .prim .string, .str v =>
    match p.regex with
    | some r => if fullMatch r v then [] else [.regexViolation r.src]
    | none => []
  | .prim .integer, .int v =>
    match p.range with
    | some r => if checkRangeI r v then [] else [.rangeViolation]
    | none => []
  | .prim .long, .int v =>
    match p.range with
    | some r => if checkRangeI r v then [] else [.rangeViolation]
    | none => []
  | .prim .double, .dbl v =>
    match p.range with
    | some r => if checkRangeQ r v then [] else [.rangeViolation]
    | none => []
  | .prim .boolean, .bool _ => []
  | .prim .dateTime, .dt _ => []
  | .enumRef en, .str v =>
    match lookupEnum m en with
    | some e => if e.literals.contains v then [] else [.enumViolation]
    | none => [.enumViolation]
  | .rel t, .str v =>
    if v == "" then [.typeMismatch]
    else
      match targetIdRegex m t with
      | some r => if fullMatch r v then [] else [.regexViolation r.src]
      | none => []
  | _, _ => [.typeMismatch]

/-- Modelled from the spec (§4.3 step 2): an array property requires a
sequence, each element independently checked against the base kind; a scalar
property requires a single value. -/
def checkValueK (m : Model) (p : Property) (v : Value) : List VErrorKind :=
  if p.isArray then
    match v with
    | .many xs => xs.flatMap (checkScalarK m p)
    | .one _ => [.typeMismatch]
  else
    match v with
    | .one s => checkScalarK m p s
    | .many _ => [.typeMismatch]

/-- Modelled from the spec (§4.3 step 1): errors for one effective property
of the target declaration; a missing value passes when the property is
optional or has a default (the default is substituted). -/
def propErrorsK (m : Model) (p : Property) (inst : Instance) : List VErrorKind :=
  match lookupValue inst p.name with
  | none => if p.optional || p.defaultValue.isSome then [] else [.missingRequired]
  | some v => checkValueK m p v

/-- Errors for one property, each carrying the field path and decl name. -/
def propErrors (m : Model) (dn : String) (p : Property) (inst : Instance) :
    List ValidationError :=
  (propErrorsK m p inst).map fun k => ⟨k, p.name, dn⟩

/-- Modelled from the spec (§4.3): validate an instance against a
declaration. An abstract declaration fails immediately with
instantiate-abstract; otherwise every effective property is checked in order
and the errors are collected, followed by unknown-field errors for instance
fields that match no declared property (the reserved type discriminator
marker is exempt). Validation is a pure function of the declaration and the
instance: no store of existing instances is consulted. -/
def validate (m : Model) (d : ClassDecl) (inst : Instance) :
    List ValidationError :=
  if d.isAbstract then [⟨.instantiateAbstract, d.name, d.name⟩]
  else
    match computeEffective m m.decls.length d with
    | none => []
    | some eff =>
      eff.flatMap (fun p => propErrors m d.name p inst) ++
        (inst.filter fun kv =>
          kv.1 != "$class" && !(eff.any fun p => p.name == kv.1)).map
          fun kv => ⟨.unknownField, kv.1, d.name⟩

/-! ### The carlease sample model, translated from
`packages/composer-common/test/data/zip/test-archive/models/carlease.cto`. -/

/-- The VIN character class `[A-HJ-NPR-Z]`. -/
def vinClass : List (Char × Char) :=
  [('A', 'H'), ('J', 'N'), ('P', 'P'), ('R', 'Z')]

/-- `regex = /^[A-HJ-NPR-Z]\x7b8\x7d[X][A-HJ-NPR-Z]\x7b2\x7d\d\x7b6\x7d$/` on `Base.vin`. -/
def vinRegex : RegexV :=
  { src := "^[A-HJ-NPR-Z]\x7b8\x7d[X][A-HJ-NPR-Z]\x7b2\x7d\\d\x7b6\x7d$"
    atoms :=
      [⟨vinClass, 8⟩, ⟨[('X', 'X')], 1⟩, ⟨vinClass, 2⟩, ⟨[('0', '9')], 6⟩] }

/-- `regex=/^[A-z][A-z][0-9]\x7b7\x7d/` on `Vehicle.V5cID`. -/
def v5cRegex : RegexV :=
  { src := "^[A-z][A-z][0-9]\x7b7\x7d"
    atoms := [⟨[('A', 'z')], 1⟩, ⟨[('A', 'z')], 1⟩, ⟨[('0', '9')], 7⟩] }

/-- `enum State` of the carlease model. -/
def stateEnum : EnumDecl := ⟨"State", ["CREATED", "REGISTERED", "SOLD"]⟩

/-- `o String vin regex = /.../` of `Base`. -/
def vinProp : Property :=
  ⟨"vin", .prim .string, false, false, none, some vinRegex, none⟩

/-- `abstract asset Base identified by vin`. -/
def baseDecl : ClassDecl :=
  ⟨"Base", .asset, true, none, some "vin", [vinProp]⟩

/-- `o Integer year default=2016 range=[1990,] optional` of `Vehicle`. -/
def yearProp : Property :=
  ⟨"year", .prim .integer, false, true, some (.one (.int 2016)), none,
    some ⟨some 1990, none⟩⟩

/-- `--> MyParticipant owner` of `Vehicle`. -/
def ownerProp : Property :=
  ⟨"owner", .rel "MyParticipant", false, false, none, none, none⟩

/-- The own properties of `asset Vehicle extends Base`, in declaration order. -/
def vehicleProps : List Property :=
  [⟨"model", .prim .string, false, false, some (.one (.str "F150")), none, none⟩,
   ⟨"make", .prim .string, false, false, some (.one (.str "FORD")), none, none⟩,
   ⟨"reg", .prim .string, false, false, some (.one (.str "ABC123")), none, none⟩,
   yearProp,
   ⟨"integerArray", .prim .integer, true, false, none, none, none⟩,
   ⟨"state", .enumRef "State", false, false, none, none, none⟩,
   ⟨"value", .prim .double, false, false, none, none, none⟩,
   ⟨"colour", .prim .string, false, false, none, none, none⟩,
   ⟨"V5cID", .prim .string, false, false, none, some v5cRegex, none⟩,
   ⟨"LeaseContractID", .prim .string, false, false, none, none, none⟩,
   ⟨"scrapped", .prim .boolean, false, false, some (.one (.bool false)), none, none⟩,
   ⟨"lastUpdate", .prim .dateTime, false, true, none, none, none⟩,
   ownerProp,
   ⟨"previousOwners", .rel "MyParticipant", true, true, none, none, none⟩]

/-- `asset Vehicle extends Base`. -/
def vehicleDecl : ClassDecl :=
  ⟨"Vehicle", .asset, false, some "Base", none, vehicleProps⟩

/-- Modelled from the spec: the imported `composer.MyParticipant` is declared
in a ModelFile that is not part of this tree; per §3 a participant referenced
by relationships is an identifiable concrete type, so it is modelled with a
single String identifying field and no validator. -/
def myParticipantDecl : ClassDecl :=
  ⟨"MyParticipant", .participant, false, none, some "participantId",
    [⟨"participantId", .prim .string, false, false, none, none, none⟩]⟩

/-- `participant Regulator extends MyParticipant`. -/
def regulatorDecl : ClassDecl :=
  ⟨"Regulator", .participant, false, some "MyParticipant", none, []⟩

/-- `transaction VehicleTransaction` with `--> Vehicle vehicle`. -/
def vehicleTransactionDecl : ClassDecl :=
  ⟨"VehicleTransaction", .transaction, false, none, none,
    [⟨"vehicle", .rel "Vehicle", false, false, none, none, none⟩]⟩

/-- A `transaction <name> extends VehicleTransaction` with one optional
relationship field (empty list for the fieldless ones). -/
def vtSub (n : String) (ps : List Property) : ClassDecl :=
  ⟨n, .transaction, false, some "VehicleTransaction", none, ps⟩

def relProp (n : String) : Property :=
  ⟨n, .rel "MyParticipant", false, false, none, none, none⟩

/-- The registered carlease model: the declarations of carlease.cto plus the
imported `composer.MyParticipant`. -/
def carlease : Model :=
  ⟨[baseDecl, vehicleDecl, myParticipantDecl, regulatorDecl,
    vehicleTransactionDecl,
    vtSub "VehicleCreated" [],
    vtSub "VehicleTransferredToManufacturer" [relProp "manufacturer"],
    vtSub "VehicleTransferredToDealer" [relProp "dealer"],
    vtSub "VehicleTransferredToLeaseCompany" [relProp "leaseCompany"],
    vtSub "VehicleTransferredToLeasee" [relProp "leasee"],
    vtSub "VehicleTransferredToScrapMerchant" [relProp "scrapMerchant"],
    vtSub "VehicleScrapped" []],
   [stateEnum]⟩

/-! ### ModelManager registration (§4.2, §8). -/

/-- Modelled from the spec (§3): a ModelFile as registered with a
ModelManager — its namespace and its source content. -/
structure ModelFile where
  namespaceName : String
  content : String
deriving DecidableEq, Repr

/-- Compile-phase errors of the ModelManager. -/
inductive ModelFileError
  | namespaceCollision (ns : String)
deriving DecidableEq, Repr

/-- Result of `addModelFile`: the updated registry, or a ModelFileError. -/
inductive AddResult
  | ok (mm : List ModelFile)
  | err (e : ModelFileError)
deriving DecidableEq, Repr

/-- Modelled from the spec (§4.2, §8): register a ModelFile. A collision with
an already-registered file under the same namespace fails, unless the content
is byte-identical, in which case registration is a no-op. -/
def addModelFile (mm : List ModelFile) (mf : ModelFile) : AddResult :=
  match mm.find? (fun f => f.namespaceName == mf.namespaceName) with
  | some f =>
    if f.content == mf.content then .ok mm
    else .err (.namespaceCollision mf.namespaceName)
  | none => .ok (mm ++ [mf])

/-! ### TestUtil helpers, translated from
`packages/composer-systests/systest/testutil.js`. -/

/-- JavaScript `a || d` for an optional string argument: `undefined` and the
empty string are falsy and select the default. -/
def jsOrString (v : Option String) (d : String) : String :=
  match v with
  | none => d
  | some s => if s = "" then d else s

/-- The arguments of the `connect` call issued by `TestUtil.getClient`. -/
structure ConnectCall where
  profile : String
  network : String
  enrollmentID : String
  enrollmentSecret : String
deriving DecidableEq, Repr

/-- `TestUtil.getClient` (testutil.js lines 673-707): the connection profile
and resolved arguments passed to `BusinessNetworkConnection.connect`, as a
function of the mode flags and the optional arguments. -/
def getClientConnectCall (hlfv1 forceDeploy : Bool)
    (network enrollmentID enrollmentSecret : Option String) : ConnectCall :=
  let network' := jsOrString network "common-network"
  let enrollmentID' := jsOrString enrollmentID "admin"
  let password := if hlfv1 then "adminpw" else "Xurw3yU9zI0l"
  let enrollmentSecret' := jsOrString enrollmentSecret password
  if hlfv1 && !forceDeploy then
    ⟨"composer-systests-org1", network', enrollmentID', enrollmentSecret'⟩
  else if hlfv1 && forceDeploy then
    ⟨"composer-systests-org1-only", network', enrollmentID', enrollmentSecret'⟩
  else
    ⟨"composer-systests", network', enrollmentID', enrollmentSecret'⟩

/-- A Docker container as reported by `docker.listContainers()`. -/
structure Container where
  Id : String
  Image : String
deriving DecidableEq, Repr

/-- `TestUtil.undeploy` (testutil.js lines 839-857): the Ids of the
containers it stops, in the order it stops them. Outside Hyperledger Fabric
V1 mode it resolves immediately without listing containers; otherwise it
filters the listing to the containers whose image name starts with `dev-`
and stops them sequentially in listing order. -/
def undeployStops (hlfv1 : Bool) (containers : List Container) : List String :=
  if !hlfv1 then []
  else
    (containers.filter fun c => c.Image.startsWith "dev-").foldl
      (fun acc c => acc ++ [c.Id]) []

/-- A class consumes exactly `n` characters when it succeeds. -/
theorem consumeClass_length (rs : List (Char × Char)) :
    ∀ (n : Nat) (cs rest : List Char),
      consumeClass rs n cs = some rest → cs.length = n + rest.length := by
  intro n
  induction n with
  | zero => intro cs rest h; cases h; simp
  | succ n ih =>
    intro cs rest h
    cases cs with
    | nil => cases h
    | cons c cs =>
      rw [consumeClass] at h
      by_cases hc : classMatch rs c
      · rw [if_pos hc] at h
        have := ih cs rest h
        simp [this]; omega
      · rw [if_neg hc] at h; cases h

/-- A successful atom-list match consumes exactly `atomsLength` characters. -/
theorem matchAtoms_length :
    ∀ (as : List RAtom) (cs rest : List Char),
      matchAtoms as cs = some rest → cs.length = atomsLength as + rest.length := by
  intro as
  induction as with
  | nil => intro cs rest h; cases h; simp [atomsLength]
  | cons a as ih =>
    intro cs rest h
    rw [matchAtoms] at h
    cases hcon : consumeClass a.ranges a.count cs with
    | none => rw [hcon] at h; cases h
    | some mid =>
      rw [hcon] at h
      have h1 := consumeClass_length a.ranges a.count cs mid hcon
      have h2 := ih mid rest h
      simp [atomsLength] at h2 ⊢
      omega

/-- A full match forces the value length to the pattern's total count. -/
theorem fullMatch_length (r : RegexV) (s : String) (h : fullMatch r s = true) :
    s.length = atomsLength r.atoms := by
  have hb : (matchAtoms r.atoms s.toList == some []) = true := h
  have hm : matchAtoms r.atoms s.toList = some [] := eq_of_beq hb
  have hl := matchAtoms_length r.atoms s.toList [] hm
  simpa using hl

/-- A successful effective-property computation equals the concatenation of
the ancestor chain's fields (root first) with the declaration's own fields. -/
theorem computeEffective_eq_chain (m : Model) :
    ∀ (fuel : Nat) (d : ClassDecl) (eff : List Property),
      computeEffective m fuel d = some eff →
      ∃ chain, ancestorChain m fuel d = some chain ∧
        eff = chain.flatMap ClassDecl.properties ++ d.properties := by
  intro fuel
  induction fuel with
  | zero =>
    intro d eff h
    rw [computeEffective] at h
    cases hsd : d.superType with
    | none =>
      rw [hsd] at h
      dsimp only at h
      cases h
      refine ⟨[], ?_, by simp⟩
      rw [ancestorChain, hsd]
    | some s =>
      rw [hsd] at h
      dsimp only at h
      cases h
  | succ fuel ih =>
    intro d eff h
    rw [computeEffective] at h
    cases hsd : d.superType with
    | none =>
      rw [hsd] at h
      dsimp only at h
      cases h
      refine ⟨[], ?_, by simp⟩
      rw [ancestorChain, hsd]
    | some s =>
      rw [hsd] at h
      dsimp only at h
      cases hlk : lookupDecl m s with
      | none => rw [hlk] at h; cases h
      | some p =>
        rw [hlk] at h
        dsimp only at h
        rcases Option.map_eq_some'.mp h with ⟨peff, hpe, heq⟩
        rcases ih p peff hpe with ⟨chain, hc, he⟩
        refine ⟨chain ++ [p], ?_, ?_⟩
        · rw [ancestorChain, hsd]
          dsimp only
          rw [hlk]
          dsimp only
          rw [hc]
          rfl
        · rw [← heq, he]; simp

/-- C1: for every successfully compiled model and every subtype declaration
in it, the effective property list returned for that declaration is exactly
the subtype's own declared fields preceded by all ancestor fields, as one
ordered set in ancestor-to-descendant declaration order: it equals the
concatenation of the ancestor chain's fields (root first) with the
declaration's own fields. -/
theorem effective_property_roundtrip (m : Model) (fuel : Nat) (d : ClassDecl)
    (eff : List Property) (h : computeEffective m fuel d = some eff) :
    ∃ chain, ancestorChain m fuel d = some chain ∧
      eff = chain.flatMap ClassDecl.properties ++ d.properties :=
  computeEffective_eq_chain m fuel d eff h

/-- Witness for C1: the round-trip at the `Vehicle` subtype of the carlease
model — the effective list is `vin` followed by Vehicle's own fields. -/
theorem effective_property_roundtrip_witness :
    ∃ chain, ancestorChain carlease 12 vehicleDecl = some chain ∧
      vinProp :: vehicleProps =
        chain.flatMap ClassDecl.properties ++ vehicleDecl.properties :=
  effective_property_roundtrip carlease 12 vehicleDecl (vinProp :: vehicleProps)
    (by decide)

/-- A successful effective-property computation ends with the declaration's
own properties. -/
theorem computeEffective_own_suffix (m : Model) (fuel : Nat) (d : ClassDecl)
    (l : List Property) (h : computeEffective m fuel d = some l) :
    ∃ pre, l = pre ++ d.properties := by
  rcases computeEffective_eq_chain m fuel d l h with ⟨chain, -, he⟩
  exact ⟨chain.flatMap ClassDecl.properties, he⟩

/-- Unfolding a successful effective-property computation one level down the
supertype link. -/
theorem computeEffective_super (m : Model) (fuel : Nat) (d b : ClassDecl)
    (s : String) (eff : List Property) (hsd : d.superType = some s)
    (hlk : lookupDecl m s = some b)
    (h : computeEffective m fuel d = some eff) :
    ∃ fuel' beff, fuel = fuel' + 1 ∧ computeEffective m fuel' b = some beff ∧
      eff = beff ++ d.properties := by
  rw [computeEffective] at h
  rw [hsd] at h
  dsimp only at h
  cases fuel with
  | zero => cases h
  | succ fuel' =>
    rw [hlk] at h
    dsimp only at h
    rcases Option.map_eq_some'.mp h with ⟨beff, hb, he⟩
    exact ⟨fuel', beff, rfl, hb, he.symm⟩

/-- C2: a concrete class extending an abstract base declared with
`identified by vin` inherits the identifying-field requirement — validating
an instance of the subtype that omits `vin` yields a missing-required error
for `vin`, even though the subtype never redeclares it. -/
theorem inherited_identifier_required (m : Model) (d b : ClassDecl)
    (p : Property) (inst : Instance) (eff : List Property) (s : String)
    (hsd : d.superType = some s) (hlk : lookupDecl m s = some b)
    (habs : b.isAbstract = true) (hid : b.identifiedBy = some "vin")
    (hp : p ∈ b.properties) (hname : p.name = "vin")
    (hopt : p.optional = false) (hdf : p.defaultValue = none)
    (hconc : d.isAbstract = false)
    (heff : computeEffective m m.decls.length d = some eff)
    (hmiss : lookupValue inst "vin" = none) :
    (⟨.missingRequired, "vin", d.name⟩ : ValidationError) ∈ validate m d inst := by
  rcases computeEffective_super m m.decls.length d b s eff hsd hlk heff
    with ⟨fuel', beff, -, hbe, hdecomp⟩
  rcases computeEffective_own_suffix m fuel' b beff hbe with ⟨pre, hpre⟩
  have hpe : p ∈ eff := by
    rw [hdecomp, hpre]
    simp [hp]
  have hperr : propErrorsK m p inst = [.missingRequired] := by
    rw [propErrorsK, hname, hmiss, hopt, hdf]
    rfl
  simp only [validate, hconc, Bool.false_eq_true, if_false, heff]
  refine List.mem_append.mpr (Or.inl ?_)
  refine List.mem_flatMap.mpr ⟨p, hpe, ?_⟩
  rw [propErrors, hperr, hname]
  simp

/-- Witness for C2: omitting `vin` from an (otherwise empty) instance of
`Vehicle` in the carlease model produces the missing-required error. -/
theorem inherited_identifier_required_witness :
    (⟨.missingRequired, "vin", "Vehicle"⟩ : ValidationError) ∈
      validate carlease vehicleDecl [] :=
  inherited_identifier_required carlease vehicleDecl baseDecl vinProp []
    (vinProp :: vehicleProps) "Base" rfl (by decide) rfl rfl (by decide) rfl
    rfl rfl rfl (by decide) rfl

/-- C3: an abstract declaration may never be the direct target of validate —
for every abstract declaration and every instance, however well-formed, the
result is exactly the instantiate-abstract error. -/
theorem validate_abstract (m : Model) (d : ClassDecl) (inst : Instance)
    (h : d.isAbstract = true) :
    validate m d inst = [⟨.instantiateAbstract, d.name, d.name⟩] := by
  rw [validate, h]
  rfl

/-- Witness for C3: validating a well-formed instance directly against the
abstract `Base` declaration fails with instantiate-abstract. -/
theorem validate_abstract_witness :
    validate carlease baseDecl
        [("vin", .one (.str "ABCDEFGHXAB123456"))] =
      [⟨.instantiateAbstract, "Base", "Base"⟩] :=
  validate_abstract carlease baseDecl
    [("vin", .one (.str "ABCDEFGHXAB123456"))] rfl

/-- C4: for the `year` field with `range=[1990,]`, a supplied value passes
exactly when `1990 ≤ v` (so 1989 fails with range-violation while 1990 and
2050 pass), the absent upper bound never fails, and in general a range check
is inclusive with an omitted bound unconstrained on that side. -/
theorem year_range_check : ∀ v : Int,
    (checkScalarK carlease yearProp (.int v) =
      if 1990 ≤ v then [] else [.rangeViolation])
    ∧ upperOkI ⟨some 1990, none⟩ v = true
    ∧ checkScalarK carlease yearProp (.int 1989) = [.rangeViolation]
    ∧ checkScalarK carlease yearProp (.int 1990) = []
    ∧ checkScalarK carlease yearProp (.int 2050) = []
    ∧ ∀ lo hi : Int,
        checkRangeI ⟨some lo, some hi⟩ v = (decide (lo ≤ v) && decide (v ≤ hi)) := by
  intro v
  refine ⟨?_, rfl, by decide, by decide, by decide, fun lo hi => rfl⟩
  show (if checkRangeI ⟨some 1990, none⟩ v then ([] : List VErrorKind)
      else [.rangeViolation]) = _
  have : checkRangeI ⟨some 1990, none⟩ v = decide (1990 ≤ v) := by
    simp [checkRangeI, lowerOkI, upperOkI]
  rw [this]
  by_cases h : 1990 ≤ v <;> simp [h]

/-- C5: for a String field with the VIN regex, validation passes exactly when
the whole value matches the pattern, and a full match forces the value to be
exactly 17 characters — so any shorter or longer value fails with a
regex-violation error naming the field's pattern. -/
theorem vin_regex_whole_match : ∀ s : String,
    (checkScalarK carlease vinProp (.str s) =
      if fullMatch vinRegex s then [] else [.regexViolation vinRegex.src])
    ∧ (fullMatch vinRegex s = true → s.length = 17) := by
  intro s
  refine ⟨rfl, fun h => ?_⟩
  have := fullMatch_length vinRegex s h
  simpa [atomsLength, vinRegex] using this

/-- Witness for C5: a 17-character conforming VIN passes, and a short
malformed value fails with the regex violation. -/
theorem vin_regex_whole_match_witness :
    ("ABCDEFGHXAB123456" : String).length = 17 ∧
    checkScalarK carlease vinProp (.str "ABCDEFGHXAB123456") = [] ∧
    checkScalarK carlease vinProp (.str "ABC") =
      [.regexViolation vinRegex.src] := by
  refine ⟨(vin_regex_whole_match "ABCDEFGHXAB123456").2 (by decide), ?_, ?_⟩
  · rw [(vin_regex_whole_match "ABCDEFGHXAB123456").1]
    decide
  · rw [(vin_regex_whole_match "ABC").1]
    decide

/-- C6: a relationship value is checked only for shape — a scalar value
passes exactly when it is a non-empty identifier string that additionally
satisfies the target type's identifying-field regex when one exists, any
non-string scalar is rejected, and an array value is checked element by
element. No store of existing instances enters the check, so existence of
the referenced instance is never verified. -/
theorem relationship_shape_only (m : Model) (p : Property) (t : String)
    (hrel : p.ptype = .rel t) :
    (∀ s : String,
      checkScalarK m p (.str s) = [] ↔
        s ≠ "" ∧ ∀ r, targetIdRegex m t = some r → fullMatch r s = true)
    ∧ (∀ x : Scalar, (∀ s, x ≠ .str s) → checkScalarK m p x ≠ [])
    ∧ (p.isArray = true → ∀ xs : List Scalar,
        (checkValueK m p (.many xs) = [] ↔ ∀ x ∈ xs, checkScalarK m p x = [])) := by
  obtain ⟨nm, pt, arr, opt, df, rg, rn⟩ := p
  dsimp only at hrel
  subst hrel
  refine ⟨?_, ?_, ?_⟩
  · intro s
    have hred : checkScalarK m ⟨nm, .rel t, arr, opt, df, rg, rn⟩ (.str s) =
        (if s == "" then [.typeMismatch]
         else
           match targetIdRegex m t with
           | some r => if fullMatch r s then [] else [.regexViolation r.src]
           | none => []) := rfl
    rw [hred]
    by_cases hse : s = ""
    · subst hse
      simp
    · rw [if_neg (by simpa using hse)]
      cases hreg : targetIdRegex m t with
      | none => simp [hse]
      | some r =>
        dsimp only
        by_cases hfm : fullMatch r s
        · simp only [hfm, if_true]
          simp only [true_iff, ne_eq, hse, not_false_iff, true_and]
          intro r' hr'
          cases hr'
          exact hfm
        · simp only [hfm, if_false, Bool.false_eq_true]
          simp only [ne_eq, hse, not_false_iff, true_and]
          constructor
          · intro hcontra
            cases hcontra
          · intro hcontra
            exact absurd (hcontra r rfl) (by simpa using hfm)
  · intro x hx
    cases x with
    | str s => exact absurd rfl (hx s)
    | int i =>
      have hred : checkScalarK m ⟨nm, .rel t, arr, opt, df, rg, rn⟩ (.int i) =
          [.typeMismatch] := rfl
      rw [hred]; simp
    | dbl q =>
      have hred : checkScalarK m ⟨nm, .rel t, arr, opt, df, rg, rn⟩ (.dbl q) =
          [.typeMismatch] := rfl
      rw [hred]; simp
    | bool b =>
      have hred : checkScalarK m ⟨nm, .rel t, arr, opt, df, rg, rn⟩ (.bool b) =
          [.typeMismatch] := rfl
      rw [hred]; simp
    | dt d =>
      have hred : checkScalarK m ⟨nm, .rel t, arr, opt, df, rg, rn⟩ (.dt d) =
          [.typeMismatch] := rfl
      rw [hred]; simp
  · intro harr xs
    subst harr
    have hred : checkValueK m ⟨nm, .rel t, true, opt, df, rg, rn⟩ (.many xs) =
        xs.flatMap (checkScalarK m ⟨nm, .rel t, true, opt, df, rg, rn⟩) := rfl
    rw [hred]
    exact List.flatMap_eq_nil_iff

/-- Witness for C6: the `vehicle` relationship of `VehicleTransaction`
targets `Vehicle`, whose inherited identifying field `vin` carries the VIN
regex; a conforming identifier passes the shape check. -/
theorem relationship_shape_only_witness :
    checkScalarK carlease
        ⟨"vehicle", .rel "Vehicle", false, false, none, none, none⟩
        (.str "ABCDEFGHXAB123456") = [] := by
  refine ((relationship_shape_only carlease
      ⟨"vehicle", .rel "Vehicle", false, false, none, none, none⟩
      "Vehicle" rfl).1 "ABCDEFGHXAB123456").mpr ⟨by decide, ?_⟩
  intro r hr
  have hv : targetIdRegex carlease "Vehicle" = some vinRegex := by decide
  rw [hv] at hr
  cases hr
  decide

/-- With namespaces unique in the registry, the collision lookup finds the
registered file of the same namespace. -/
theorem find_registered (mm : List ModelFile) (mf f : ModelFile)
    (huniq : mm.Pairwise fun a b => a.namespaceName ≠ b.namespaceName)
    (hmem : f ∈ mm) (hns : f.namespaceName = mf.namespaceName) :
    mm.find? (fun g => g.namespaceName == mf.namespaceName) = some f := by
  induction mm with
  | nil => cases hmem
  | cons a tl ih =>
    rcases List.mem_cons.mp hmem with h | h
    · subst h
      rw [List.find?_cons]
      have ht : (f.namespaceName == mf.namespaceName) = true := by simp [hns]
      rw [ht]
    · have hpw := List.pairwise_cons.mp huniq
      have hane : a.namespaceName ≠ f.namespaceName := hpw.1 f h
      rw [List.find?_cons]
      have hfalse : (a.namespaceName == mf.namespaceName) = false := by
        rw [← hns]
        exact beq_eq_false_iff_ne.mpr hane
      rw [hfalse]
      exact ih hpw.2 h

/-- C7: registering a ModelFile under an already-registered namespace fails
with a namespace-collision ModelFileError when the content differs, while
re-registering byte-identical content is a no-op leaving the registry
unchanged. -/
theorem add_model_file_collision (mm : List ModelFile) (mf f : ModelFile)
    (huniq : mm.Pairwise fun a b => a.namespaceName ≠ b.namespaceName)
    (hmem : f ∈ mm) (hns : f.namespaceName = mf.namespaceName) :
    (f.content ≠ mf.content →
      addModelFile mm mf = .err (.namespaceCollision mf.namespaceName))
    ∧ (f.content = mf.content → addModelFile mm mf = .ok mm) := by
  have hfind := find_registered mm mf f huniq hmem hns
  constructor
  · intro hne
    rw [addModelFile, hfind]
    dsimp only
    rw [if_neg (by simpa using hne)]
  · intro he
    rw [addModelFile, hfind]
    dsimp only
    rw [if_pos (by simpa using he)]

/-- Witness for C7: a second file with the same namespace but different
content collides; the byte-identical file is a no-op. -/
theorem add_model_file_collision_witness :
    addModelFile [⟨"org.acme", "X"⟩] ⟨"org.acme", "Y"⟩ =
        .err (.namespaceCollision "org.acme") ∧
      addModelFile [⟨"org.acme", "X"⟩] ⟨"org.acme", "X"⟩ =
        .ok [⟨"org.acme", "X"⟩] :=
  ⟨(add_model_file_collision [⟨"org.acme", "X"⟩] ⟨"org.acme", "Y"⟩
      ⟨"org.acme", "X"⟩ (List.pairwise_singleton _ _) (by simp) rfl).1
      (by decide),
   (add_model_file_collision [⟨"org.acme", "X"⟩] ⟨"org.acme", "X"⟩
      ⟨"org.acme", "X"⟩ (List.pairwise_singleton _ _) (by simp) rfl).2 rfl⟩

/-- C8: validation collects errors per violated field rather than failing on
the first violation — every error kind produced for any effective property
appears in the single returned list, as an error carrying that property's
field path and the declaration name; and every returned error carries the
declaration name. -/
theorem validation_errors_collected (m : Model) (d : ClassDecl)
    (inst : Instance) (eff : List Property)
    (hconc : d.isAbstract = false)
    (heff : computeEffective m m.decls.length d = some eff) :
    (∀ e ∈ validate m d inst, e.declName = d.name)
    ∧ ∀ p ∈ eff, ∀ k ∈ propErrorsK m p inst,
        (⟨k, p.name, d.name⟩ : ValidationError) ∈ validate m d inst := by
  have hval : validate m d inst =
      eff.flatMap (fun p => propErrors m d.name p inst) ++
        (inst.filter fun kv =>
          kv.1 != "$class" && !(eff.any fun p => p.name == kv.1)).map
          (fun kv => ⟨.unknownField, kv.1, d.name⟩) := by
    simp only [validate, hconc, Bool.false_eq_true, if_false, heff]
  constructor
  · intro e he
    rw [hval] at he
    rcases List.mem_append.mp he with h | h
    · rcases List.mem_flatMap.mp h with ⟨p, -, hpe⟩
      rw [propErrors] at hpe
      rcases List.mem_map.mp hpe with ⟨k, -, hk⟩
      rw [← hk]
    · rcases List.mem_map.mp h with ⟨kv, -, hk⟩
      rw [← hk]
  · intro p hp k hk
    rw [hval]
    refine List.mem_append.mpr (Or.inl ?_)
    refine List.mem_flatMap.mpr ⟨p, hp, ?_⟩
    rw [propErrors]
    exact List.mem_map.mpr ⟨k, hk, rfl⟩

/-- Witness for C8: an instance of `Vehicle` violating two distinct fields
receives both errors in the one returned list. -/
theorem validation_errors_collected_witness :
    (⟨.missingRequired, "vin", "Vehicle"⟩ : ValidationError) ∈
        validate carlease vehicleDecl [("colour", .one (.str "RED"))] ∧
      (⟨.missingRequired, "owner", "Vehicle"⟩ : ValidationError) ∈
        validate carlease vehicleDecl [("colour", .one (.str "RED"))] := by
  have h := validation_errors_collected carlease vehicleDecl
    [("colour", .one (.str "RED"))] (vinProp :: vehicleProps) rfl (by decide)
  exact ⟨h.2 vinProp (by decide) .missingRequired (by decide),
         h.2 ownerProp (by decide) .missingRequired (by decide)⟩

/-- C9: `TestUtil.getClient` with no network argument connects to
`common-network`; with no enrollment ID it uses `admin`, and the enrollment
secret defaults to `adminpw` in Hyperledger Fabric V1 mode and to
`Xurw3yU9zI0l` otherwise. -/
theorem getclient_defaults : ∀ hlfv1 forceDeploy : Bool,
    (getClientConnectCall hlfv1 forceDeploy none none none).network =
        "common-network"
    ∧ (getClientConnectCall hlfv1 forceDeploy none none none).enrollmentID =
        "admin"
    ∧ (getClientConnectCall hlfv1 forceDeploy none none none).enrollmentSecret =
        (if hlfv1 then "adminpw" else "Xurw3yU9zI0l") := by
  intro h f
  cases h <;> cases f <;> exact ⟨rfl, rfl, rfl⟩

/-- C10: `TestUtil.undeploy` outside Hyperledger Fabric V1 mode resolves
without consulting the container listing (it stops nothing, whatever the
listing is); in V1 mode it stops exactly the containers whose image name
starts with `dev-`, in listing order, leaving every other container
untouched. -/
theorem undeploy_stops_exactly_dev : ∀ cs cs' : List Container,
    undeployStops false cs = []
    ∧ undeployStops false cs = undeployStops false cs'
    ∧ undeployStops true cs =
        (cs.filter fun c => c.Image.startsWith "dev-").map Container.Id := by
  have hfold : ∀ (l : List Container) (acc : List String),
      l.foldl (fun a c => a ++ [c.Id]) acc = acc ++ l.map Container.Id := by
    intro l
    induction l with
    | nil => intro acc; simp
    | cons a tl ih => intro acc; simp [ih]
  intro cs cs'
  refine ⟨rfl, rfl, ?_⟩
  show (cs.filter fun c => c.Image.startsWith "dev-").foldl
      (fun a c => a ++ [c.Id]) [] = _
  rw [hfold]
  simp
